import Mathlib

/-!
Verification of datasette-showboat (file src/datasette_showboat/__init__.py).

The Python plugin stores "chunks" in a SQLite table
`showboat_chunks (id INTEGER PRIMARY KEY AUTOINCREMENT, showboat_id TEXT,
created_at TEXT, markdown TEXT, image BLOB)`, receives commands over a POST
endpoint and serves JSON listings and an HTML index.  Below the relevant
parts are embedded as executable Lean definitions: pure string helpers
(`make_fence`, the per-command markdown builders, base64) become Lean
functions, and the stateful route handlers become functions from an explicit
database state to a response together with the new state.
-/

set_option maxRecDepth 8000

/-- One row of the showboat_chunks table (schema from the startup hook). -/
structure Chunk where
  id : Nat
  showboat_id : String
  created_at : String
  markdown : String
  image : Option (List Nat)
deriving DecidableEq, Repr

/-- Database state: rows in insertion order plus the AUTOINCREMENT counter. -/
structure DB where
  rows : List Chunk
  nextId : Nat
deriving DecidableEq, Repr

/-- The freshly created (empty) table; SQLite AUTOINCREMENT starts ids at 1. -/
def emptyDB : DB := ⟨[], 1⟩

/-- An incoming HTTP request after body parsing: the method, the optional
token query argument, the parsed form fields, and uploaded file parts. -/
structure Request where
  method : String
  token : Option String
  fields : List (String × String)
  files : List (String × List Nat)
deriving DecidableEq, Repr

/-- Response body: either the success object or an error object. -/
inductive Body where
  | ok : Body
  | err : String → Body
deriving DecidableEq, Repr

/-- An HTTP response: status code and JSON body. -/
structure Resp where
  status : Nat
  body : Body
deriving DecidableEq, Repr

/-- Python dict-style field access with default: fields.get(k, d). -/
def getField (fields : List (String × String)) (k d : String) : String :=
  (fields.lookup k).getD d

/-- The backtick character, spelled by code point to keep sources clean. -/
def backtick : Char := Char.ofNat 96

/-- The scanning loop of make_fence: carries (max_run, current_run) over the
characters of the content, exactly as the Python for-loop does. -/
def fenceLoop : List Char → Nat × Nat → Nat × Nat
  | [], st => st
  | ch :: rest, (m, c) =>
    if ch = backtick then fenceLoop rest (max m (c + 1), c + 1)
    else fenceLoop rest (m, 0)

/-- make_fence(content): a backtick fence of length max(3, max_run + 1). -/
def make_fence (content : String) : String :=
  String.mk (List.replicate (max 3 ((fenceLoop content.data (0, 0)).1 + 1)) backtick)

/-- Specification helper: length of the leading backtick run of a list. -/
def leadRun : List Char → Nat
  | [] => 0
  | ch :: rest => if ch = backtick then leadRun rest + 1 else 0

/-- Specification helper: length of the longest backtick run in a list. -/
def maxRun : List Char → Nat
  | [] => 0
  | ch :: rest => max (leadRun (ch :: rest)) (maxRun rest)

/-- Intermediate form of the scanning loop that drops the max accumulator. -/
def runAcc : Nat → List Char → Nat
  | _, [] => 0
  | c, ch :: rest =>
    if ch = backtick then max (c + 1) (runAcc (c + 1) rest) else runAcc 0 rest

/-- Token gate of showboat_receive: get_token(datasette) is truthy (configured
and non-empty) and the token query argument does not equal it. -/
def tokenCheckFails (expected provided : Option String) : Bool :=
  match expected with
  | none => false
  | some t => if t = "" then false else provided != some t

/-- Markdown stored for an init command: "# " + fields.get("title", "Untitled"). -/
def initMarkdown (fields : List (String × String)) : String :=
  "# " ++ getField fields "title" "Untitled"

/-- Markdown stored for an exec command: two fenced blocks, each fence computed
from its own block content, separated by a blank line. -/
def execMarkdown (language input_code output_text : String) : String :=
  make_fence input_code ++ language ++ "\n" ++ input_code ++ "\n" ++ make_fence input_code ++
    "\n\n" ++ make_fence output_text ++ "output\n" ++ output_text ++ "\n" ++ make_fence output_text

/-- Markdown stored for an image command: a fenced block computed from the
"input" field tagged bash {image}, plus an image reference when alt is set. -/
def imageMarkdown (fields : List (String × String)) : String :=
  if getField fields "alt" "" ≠ "" then
    make_fence (getField fields "input" "") ++ "bash {image}\n" ++ getField fields "input" "" ++
      "\n" ++ make_fence (getField fields "input" "") ++ "\n\n![" ++
      getField fields "alt" "" ++ "]()"
  else
    make_fence (getField fields "input" "") ++ "bash {image}\n" ++ getField fields "input" "" ++
      "\n" ++ make_fence (getField fields "input" "")

/-- All rows of one document, in insertion (= id) order. -/
def docRows (db : DB) (u : String) : List Chunk :=
  db.rows.filter (fun c => c.showboat_id == u)

/-- Running maximum over an optional accumulator. -/
def optMax : Option Nat → Nat → Option Nat
  | none, i => some i
  | some m, i => some (max m i)

/-- The pop subquery: SELECT id FROM showboat_chunks WHERE showboat_id = ?
ORDER BY id DESC LIMIT 1, i.e. the greatest id among the document's rows. -/
def docMaxId (db : DB) (u : String) : Option Nat :=
  ((docRows db u).map Chunk.id).foldl optMax none

/-- The pop branch of showboat_receive: DELETE the row whose id is the
document's maximum id; a no-op when the document has no rows. -/
def popDelete (db : DB) (u : String) : DB :=
  match docMaxId db u with
  | none => db
  | some i => ⟨db.rows.filter (fun c => decide (c.id ≠ i)), db.nextId⟩

/-- INSERT INTO showboat_chunks ... VALUES (?, ?, ?, ?) plus the 201 reply. -/
def insertChunk (db : DB) (u created md : String) (img : Option (List Nat)) : Resp × DB :=
  (⟨201, Body.ok⟩, ⟨db.rows ++ [⟨db.nextId, u, created, md, img⟩], db.nextId + 1⟩)

/-- The showboat_receive route handler, over an explicit database state.
The created_at timestamp is passed in as a parameter. -/
def showboat_receive (expected_token : Option String) (req : Request) (created_at : String)
    (db : DB) : Resp × DB :=
  if req.method ≠ "POST" then (⟨405, Body.err "Method not allowed"⟩, db)
  else if tokenCheckFails expected_token req.token then (⟨403, Body.err "Invalid token"⟩, db)
  else if getField req.fields "uuid" "" = "" ∨ getField req.fields "command" "" = "" then
    (⟨400, Body.err "uuid and command are required"⟩, db)
  else if getField req.fields "command" "" = "init" then
    insertChunk db (getField req.fields "uuid" "") created_at (initMarkdown req.fields) none
  else if getField req.fields "command" "" = "note" then
    insertChunk db (getField req.fields "uuid" "") created_at
      (getField req.fields "markdown" "") none
  else if getField req.fields "command" "" = "exec" then
    insertChunk db (getField req.fields "uuid" "") created_at
      (execMarkdown (getField req.fields "language" "") (getField req.fields "input" "")
        (getField req.fields "output" "")) none
  else if getField req.fields "command" "" = "image" then
    insertChunk db (getField req.fields "uuid" "") created_at (imageMarkdown req.fields)
      (req.files.lookup "image")
  else if getField req.fields "command" "" = "pop" then
    (⟨200, Body.ok⟩, popDelete db (getField req.fields "uuid" ""))
  else (⟨400, Body.err ("Unknown command: " ++ getField req.fields "command" "")⟩, db)

/-- The base64 alphabet. -/
def b64chars : List Char :=
  "ABCDEFGHIJKLMNOPQRSTUVWXYZabcdefghijklmnopqrstuvwxyz0123456789+/".data

/-- One base64 digit. -/
def b64char (n : Nat) : Char := b64chars.getD n 'A'

/-- base64.b64encode over a byte list, with padding. -/
def b64encode : List Nat → String
  | [] => ""
  | [a] => String.mk [b64char (a / 4), b64char (a % 4 * 16), '=', '=']
  | [a, b] => String.mk [b64char (a / 4), b64char (a % 4 * 16 + b / 16), b64char (b % 16 * 4), '=']
  | a :: b :: c :: rest =>
    String.mk [b64char (a / 4), b64char (a % 4 * 16 + b / 16), b64char (b % 16 * 4 + c / 64),
      b64char (c % 64)] ++ b64encode rest

/-- A JSON scalar as produced by the document listing. -/
inductive JVal where
  | s : String → JVal
  | n : Nat → JVal
deriving DecidableEq, Repr

/-- One chunk as serialised by showboat_document_json: the four stored text
columns, plus an "image" key holding base64 text when the blob is truthy. -/
def chunkJson (c : Chunk) : List (String × JVal) :=
  [("id", JVal.n c.id), ("showboat_id", JVal.s c.showboat_id),
    ("created_at", JVal.s c.created_at), ("markdown", JVal.s c.markdown)] ++
  (match c.image with
   | some bs => if bs ≠ [] then [("image", JVal.s (b64encode bs))] else []
   | none => [])

/-- The SELECT of showboat_document_json: the document's rows, optionally
restricted to id > after, ORDER BY id. -/
def listRows (db : DB) (u : String) (after : Option Nat) : List Chunk :=
  match after with
  | some a =>
    List.insertionSort (fun x y => x.id ≤ y.id)
      (db.rows.filter (fun c => c.showboat_id == u && decide (a < c.id)))
  | none =>
    List.insertionSort (fun x y => x.id ≤ y.id)
      (db.rows.filter (fun c => c.showboat_id == u))

/-- The showboat_document_json route handler: the chunks array of the reply. -/
def showboat_document_json (db : DB) (u : String) (after : Option Nat) :
    List (List (String × JVal)) :=
  (listRows db u after).map chunkJson

/-- One row of the index aggregation: showboat_id, COUNT(*), MIN(created_at),
MAX(created_at). -/
structure Summary where
  showboat_id : String
  chunk_count : Nat
  first_chunk : String
  last_chunk : String
deriving DecidableEq, Repr

/-- ORDER BY MAX(created_at) DESC as a relation on summaries. -/
def rDesc (a b : Summary) : Prop := b.last_chunk ≤ a.last_chunk

instance : DecidableRel rDesc :=
  fun a b => inferInstanceAs (Decidable (b.last_chunk ≤ a.last_chunk))

instance : IsTotal Summary rDesc := ⟨fun a b => le_total b.last_chunk a.last_chunk⟩

instance : IsTrans Summary rDesc := ⟨fun _ _ _ h1 h2 => le_trans h2 h1⟩

/-- The aggregate row for one document id. -/
def summaryFor (db : DB) (u : String) : Summary :=
  match (docRows db u).map Chunk.created_at with
  | [] => ⟨u, 0, "", ""⟩
  | t :: ts => ⟨u, (docRows db u).length, ts.foldl min t, ts.foldl max t⟩

/-- The showboat_index aggregation: GROUP BY showboat_id, then
ORDER BY MAX(created_at) DESC. -/
def showboat_index (db : DB) : List Summary :=
  List.insertionSort rDesc ((db.rows.map Chunk.showboat_id).dedup.map (summaryFor db))

/-- Boolean check that the first list is an initial segment of the second. -/
def isPre : List Char → List Char → Bool
  | [], _ => true
  | _ :: _, [] => false
  | a :: as, b :: bs => a == b && isPre as bs

/-- Boolean substring check over character lists. -/
def containsSub (needle : List Char) : List Char → Bool
  | [] => isPre needle []
  | hay@(_ :: rest) => isPre needle hay || containsSub needle rest

/-- Well-formedness of a database state: ids strictly increase along the row
list (AUTOINCREMENT order) and stay below the counter. -/
def WF (db : DB) : Prop :=
  List.Pairwise (fun a b : Chunk => a.id < b.id) db.rows ∧ ∀ c ∈ db.rows, c.id < db.nextId

/-- A concrete init request, as in the repository's tests. -/
def reqInit : Request :=
  ⟨"POST", none, [("uuid", "doc-1"), ("command", "init"), ("title", "Title")], []⟩

/-- A concrete note request. -/
def reqNote : Request :=
  ⟨"POST", none, [("uuid", "doc-1"), ("command", "note"), ("markdown", "To be popped")], []⟩

/-- A concrete pop request. -/
def reqPop : Request := ⟨"POST", none, [("uuid", "doc-1"), ("command", "pop")], []⟩

/-- State after receiving the init command on a fresh table. -/
def dbAfterInit : DB := (showboat_receive none reqInit "2024-01-01T00:00:00" emptyDB).2

/-- State after additionally receiving the note command. -/
def dbAfterNote : DB := (showboat_receive none reqNote "2024-01-01T00:00:01" dbAfterInit).2

/-- Response and state produced by a pop arriving after the two chunks. -/
def popOutcome : Resp × DB := showboat_receive none reqPop "2024-01-01T00:00:02" dbAfterNote

/-- A database holding three documents with distinct last-activity times. -/
def exDb3 : DB :=
  ⟨[⟨1, "a", "2024-01-01T00:00:00", "# A", none⟩,
    ⟨2, "b", "2024-01-02T00:00:00", "# B", none⟩,
    ⟨3, "c", "2024-01-03T00:00:00", "# C", none⟩], 4⟩

/-- A database holding two documents, one with two chunks. -/
def exDb4 : DB :=
  ⟨[⟨1, "e", "2024-01-01T00:00:00", "x", none⟩,
    ⟨2, "d", "2024-01-02T00:00:00", "y", none⟩,
    ⟨3, "d", "2024-01-03T00:00:00", "z", none⟩], 4⟩

/-- A pop request for document d. -/
def reqPopD : Request := ⟨"POST", none, [("uuid", "d"), ("command", "pop")], []⟩

theorem fenceLoop_cons_bt (rest : List Char) (m c : Nat) :
    fenceLoop (backtick :: rest) (m, c) = fenceLoop rest (max m (c + 1), c + 1) := by
  simp [fenceLoop]

theorem fenceLoop_cons_ne (ch : Char) (rest : List Char) (m c : Nat) (h : ch ≠ backtick) :
    fenceLoop (ch :: rest) (m, c) = fenceLoop rest (m, 0) := by
  simp [fenceLoop, h]

theorem runAcc_cons_bt (c : Nat) (rest : List Char) :
    runAcc c (backtick :: rest) = max (c + 1) (runAcc (c + 1) rest) := by
  simp [runAcc]

theorem runAcc_cons_ne (c : Nat) (ch : Char) (rest : List Char) (h : ch ≠ backtick) :
    runAcc c (ch :: rest) = runAcc 0 rest := by
  simp [runAcc, h]

theorem leadRun_cons_bt (rest : List Char) : leadRun (backtick :: rest) = leadRun rest + 1 := by
  simp [leadRun]

theorem leadRun_cons_ne (ch : Char) (rest : List Char) (h : ch ≠ backtick) :
    leadRun (ch :: rest) = 0 := by
  simp [leadRun, h]

theorem maxRun_cons (ch : Char) (rest : List Char) :
    maxRun (ch :: rest) = max (leadRun (ch :: rest)) (maxRun rest) := rfl

theorem fenceLoop_fst (l : List Char) : ∀ m c, (fenceLoop l (m, c)).1 = max m (runAcc c l) := by
  induction l with
  | nil => intro m c; simp [fenceLoop, runAcc]
  | cons ch rest ih =>
    intro m c
    by_cases hch : ch = backtick
    · subst hch
      rw [fenceLoop_cons_bt, runAcc_cons_bt, ih]
      omega
    · rw [fenceLoop_cons_ne ch rest m c hch, runAcc_cons_ne c ch rest hch, ih]

theorem leadRun_le_maxRun (l : List Char) : leadRun l ≤ maxRun l := by
  cases l with
  | nil => simp [leadRun, maxRun]
  | cons ch rest => rw [maxRun_cons]; omega

theorem runAcc_eq (l : List Char) :
    ∀ c, max (runAcc c l) c = max (max (c + leadRun l) (maxRun l)) c := by
  induction l with
  | nil => intro c; simp [runAcc, leadRun, maxRun]
  | cons ch rest ih =>
    intro c
    by_cases hch : ch = backtick
    · subst hch
      rw [runAcc_cons_bt, leadRun_cons_bt, maxRun_cons, leadRun_cons_bt]
      have h1 := ih (c + 1)
      have h2 := leadRun_le_maxRun rest
      omega
    · rw [runAcc_cons_ne c ch rest hch, leadRun_cons_ne ch rest hch, maxRun_cons,
        leadRun_cons_ne ch rest hch]
      have h1 := ih 0
      have h2 := leadRun_le_maxRun rest
      omega

theorem fenceLoop_eq_maxRun (l : List Char) : (fenceLoop l (0, 0)).1 = maxRun l := by
  have h1 := fenceLoop_fst l 0 0
  have h2 := runAcc_eq l 0
  have h3 := leadRun_le_maxRun l
  omega

theorem make_fence_eq (content : String) :
    make_fence content = String.mk (List.replicate (max 3 (maxRun content.data + 1)) backtick) := by
  rw [make_fence, fenceLoop_eq_maxRun]

theorem make_fence_length (content : String) :
    (make_fence content).length = max 3 (maxRun content.data + 1) := by
  rw [make_fence_eq]
  show (List.replicate (max 3 (maxRun content.data + 1)) backtick).length = _
  simp

theorem leadRun_replicate_append (t : List Char) :
    ∀ k, leadRun (List.replicate k backtick ++ t) = k + leadRun t := by
  intro k
  induction k with
  | zero => simp
  | succ k ih =>
    rw [List.replicate_succ, List.cons_append, leadRun_cons_bt, ih]
    omega

theorem run_le_maxRun (k : Nat) :
    ∀ (s t : List Char), k ≤ maxRun (s ++ List.replicate k backtick ++ t) := by
  intro s
  induction s with
  | nil =>
    intro t
    rw [List.nil_append]
    have h1 := leadRun_replicate_append t k
    have h2 := leadRun_le_maxRun (List.replicate k backtick ++ t)
    omega
  | cons ch s ih =>
    intro t
    have h := ih t
    show k ≤ maxRun (ch :: ((s ++ List.replicate k backtick) ++ t))
    rw [maxRun_cons]
    omega

theorem leadRun_self_append (l : List Char) :
    ∃ t, l = List.replicate (leadRun l) backtick ++ t := by
  induction l with
  | nil => exact ⟨[], by simp [leadRun]⟩
  | cons ch rest ih =>
    by_cases hch : ch = backtick
    · subst hch
      obtain ⟨t, ht⟩ := ih
      refine ⟨t, ?_⟩
      rw [leadRun_cons_bt, List.replicate_succ, List.cons_append, ← ht]
    · exact ⟨ch :: rest, by rw [leadRun_cons_ne ch rest hch]; simp⟩

theorem maxRun_achieved (l : List Char) :
    ∃ s t, l = s ++ List.replicate (maxRun l) backtick ++ t := by
  induction l with
  | nil => exact ⟨[], [], by simp [maxRun]⟩
  | cons ch rest ih =>
    rcases le_total (leadRun (ch :: rest)) (maxRun rest) with h | h
    · obtain ⟨s, t, hst⟩ := ih
      refine ⟨ch :: s, t, ?_⟩
      have hmax : maxRun (ch :: rest) = maxRun rest := by rw [maxRun_cons]; omega
      rw [hmax, List.cons_append, List.cons_append, ← hst]
    · obtain ⟨t, ht⟩ := leadRun_self_append (ch :: rest)
      refine ⟨[], t, ?_⟩
      have hmax : maxRun (ch :: rest) = leadRun (ch :: rest) := by rw [maxRun_cons]; omega
      rw [hmax, List.nil_append, ← ht]

theorem maxRun_eq_zero_of_no_backtick (l : List Char) (h : backtick ∉ l) : maxRun l = 0 := by
  induction l with
  | nil => simp [maxRun]
  | cons ch rest ih =>
    have hne : ch ≠ backtick := fun hc => h (hc ▸ List.mem_cons_self ch rest)
    have hr : backtick ∉ rest := fun hc => h (List.mem_cons_of_mem ch hc)
    rw [maxRun_cons, leadRun_cons_ne ch rest hne, ih hr]
    omega

theorem isPre_iff (n : List Char) : ∀ l, isPre n l = true ↔ ∃ t, l = n ++ t := by
  induction n with
  | nil =>
    intro l
    simp [isPre]
  | cons a as ih =>
    intro l
    cases l with
    | nil =>
      constructor
      · intro h
        simp [isPre] at h
      · rintro ⟨t, ht⟩
        simp at ht
    | cons b bs =>
      simp only [isPre, Bool.and_eq_true, beq_iff_eq, List.cons_append, List.cons.injEq]
      rw [ih bs]
      constructor
      · rintro ⟨hab, t, ht⟩
        exact ⟨t, hab.symm, ht⟩
      · rintro ⟨t, hba, ht⟩
        exact ⟨hba.symm, t, ht⟩

theorem containsSub_iff (n : List Char) : ∀ l, containsSub n l = true ↔ ∃ s t, l = s ++ n ++ t := by
  intro l
  induction l with
  | nil =>
    rw [show containsSub n [] = isPre n [] from rfl, isPre_iff]
    constructor
    · rintro ⟨t, ht⟩
      exact ⟨[], t, by simpa using ht⟩
    · rintro ⟨s, t, ht⟩
      rw [List.append_assoc] at ht
      rcases List.append_eq_nil.1 ht.symm with ⟨hs, hnt⟩
      rcases List.append_eq_nil.1 hnt with ⟨hn, htt⟩
      exact ⟨t, by simp [hn, htt]⟩
  | cons x rest ih =>
    rw [show containsSub n (x :: rest) = (isPre n (x :: rest) || containsSub n rest) from rfl]
    rw [Bool.or_eq_true, isPre_iff, ih]
    constructor
    · rintro (⟨t, ht⟩ | ⟨s, t, ht⟩)
      · exact ⟨[], t, by simpa using ht⟩
      · exact ⟨x :: s, t, by simp [ht]⟩
    · rintro ⟨s, t, ht⟩
      cases s with
      | nil => exact Or.inl ⟨t, by simpa using ht⟩
      | cons y s =>
        right
        rw [List.cons_append, List.cons_append] at ht
        injection ht with h1 h2
        exact ⟨s, t, h2⟩

theorem foldl_min_le {α : Type} [LinearOrder α] :
    ∀ (ts : List α) (t x : α), x ∈ t :: ts → ts.foldl min t ≤ x := by
  intro ts
  induction ts with
  | nil =>
    intro t x hx
    simp at hx
    simp [hx]
  | cons a ts ih =>
    intro t x hx
    rw [List.foldl_cons]
    rcases List.mem_cons.1 hx with hx | hx
    · subst hx
      exact le_trans (ih (min x a) (min x a) (List.mem_cons_self _ _)) (min_le_left x a)
    · rcases List.mem_cons.1 hx with hx | hx
      · subst hx
        exact le_trans (ih (min t x) (min t x) (List.mem_cons_self _ _)) (min_le_right t x)
      · exact ih (min t a) x (List.mem_cons_of_mem _ hx)

theorem foldl_min_mem {α : Type} [LinearOrder α] :
    ∀ (ts : List α) (t : α), ts.foldl min t ∈ t :: ts := by
  intro ts
  induction ts with
  | nil => intro t; simp
  | cons a ts ih =>
    intro t
    rw [List.foldl_cons]
    rcases List.mem_cons.1 (ih (min t a)) with hx | hx
    · rcases min_choice t a with hm | hm
      · rw [hx, hm]; exact List.mem_cons_self _ _
      · rw [hx, hm]; exact List.mem_cons_of_mem _ (List.mem_cons_self _ _)
    · exact List.mem_cons_of_mem _ (List.mem_cons_of_mem _ hx)

theorem foldl_max_le {α : Type} [LinearOrder α] :
    ∀ (ts : List α) (t x : α), x ∈ t :: ts → x ≤ ts.foldl max t := by
  intro ts
  induction ts with
  | nil =>
    intro t x hx
    simp at hx
    simp [hx]
  | cons a ts ih =>
    intro t x hx
    rw [List.foldl_cons]
    rcases List.mem_cons.1 hx with hx | hx
    · subst hx
      exact le_trans (le_max_left x a) (ih (max x a) (max x a) (List.mem_cons_self _ _))
    · rcases List.mem_cons.1 hx with hx | hx
      · subst hx
        exact le_trans (le_max_right t x) (ih (max t x) (max t x) (List.mem_cons_self _ _))
      · exact ih (max t a) x (List.mem_cons_of_mem _ hx)

theorem foldl_max_mem {α : Type} [LinearOrder α] :
    ∀ (ts : List α) (t : α), ts.foldl max t ∈ t :: ts := by
  intro ts
  induction ts with
  | nil => intro t; simp
  | cons a ts ih =>
    intro t
    rw [List.foldl_cons]
    rcases List.mem_cons.1 (ih (max t a)) with hx | hx
    · rcases max_choice t a with hm | hm
      · rw [hx, hm]; exact List.mem_cons_self _ _
      · rw [hx, hm]; exact List.mem_cons_of_mem _ (List.mem_cons_self _ _)
    · exact List.mem_cons_of_mem _ (List.mem_cons_of_mem _ hx)

theorem foldl_optMax_some (l : List Nat) :
    ∀ a, ∃ m, l.foldl optMax (some a) = some m ∧ a ≤ m ∧ (m = a ∨ m ∈ l) ∧ ∀ x ∈ l, x ≤ m := by
  induction l with
  | nil =>
    intro a
    exact ⟨a, rfl, le_refl a, Or.inl rfl, by simp⟩
  | cons i r ih =>
    intro a
    obtain ⟨m, hm, ham, hmem, hall⟩ := ih (max a i)
    refine ⟨m, ?_, le_trans (le_max_left a i) ham, ?_, ?_⟩
    · rw [List.foldl_cons]
      exact hm
    · rcases hmem with hmem | hmem
      · rcases max_choice a i with hc | hc
        · exact Or.inl (hmem.trans hc)
        · exact Or.inr (by rw [hmem, hc]; exact List.mem_cons_self i r)
      · exact Or.inr (List.mem_cons_of_mem _ hmem)
    · intro x hx
      rcases List.mem_cons.1 hx with hx | hx
      · rw [hx]
        exact le_trans (le_max_right a i) ham
      · exact hall x hx

theorem mem_docRows {db : DB} {u : String} {c : Chunk} :
    c ∈ docRows db u ↔ c ∈ db.rows ∧ c.showboat_id = u := by
  simp [docRows, List.mem_filter]

theorem docMaxId_none {db : DB} {u : String} : docMaxId db u = none ↔ docRows db u = [] := by
  rw [docMaxId]
  cases h : docRows db u with
  | nil => simp
  | cons c cs =>
    rw [List.map_cons, List.foldl_cons]
    obtain ⟨m, hm, -, -, -⟩ := foldl_optMax_some (cs.map Chunk.id) c.id
    rw [show optMax none c.id = some c.id from rfl, hm]
    simp

theorem docMaxId_some {db : DB} {u : String} (h : docRows db u ≠ []) :
    ∃ m, docMaxId db u = some m ∧ (∃ g ∈ docRows db u, g.id = m) ∧
      ∀ c ∈ docRows db u, c.id ≤ m := by
  rw [docMaxId]
  cases hd : docRows db u with
  | nil => exact absurd hd h
  | cons c cs =>
    rw [List.map_cons, List.foldl_cons, show optMax none c.id = some c.id from rfl]
    obtain ⟨m, hm, hcm, hmem, hall⟩ := foldl_optMax_some (cs.map Chunk.id) c.id
    refine ⟨m, hm, ?_, ?_⟩
    · rcases hmem with hmem | hmem
      · exact ⟨c, List.mem_cons_self c cs, hmem.symm⟩
      · obtain ⟨g, hg, hgm⟩ := List.mem_map.1 hmem
        exact ⟨g, List.mem_cons_of_mem _ hg, hgm⟩
    · intro x hx
      rcases List.mem_cons.1 hx with hx | hx
      · rw [hx]; exact hcm
      · exact hall x.id (List.mem_map_of_mem Chunk.id hx)

theorem popDelete_empty {db : DB} {u : String} (h : docRows db u = []) : popDelete db u = db := by
  rw [popDelete, docMaxId_none.2 h]

theorem popDelete_rows_sublist (db : DB) (u : String) : (popDelete db u).rows.Sublist db.rows := by
  rw [popDelete]
  cases h : docMaxId db u with
  | none => exact List.Sublist.refl _
  | some i => exact List.filter_sublist _

theorem pairwise_filter_ne_length (l : List Chunk)
    (hp : List.Pairwise (fun a b : Chunk => a.id < b.id) l) (g : Chunk) (hg : g ∈ l) :
    (l.filter (fun c => decide (c.id ≠ g.id))).length + 1 = l.length := by
  induction l with
  | nil => cases hg
  | cons x rest ih =>
    rcases List.mem_cons.1 hg with hx | hx
    · subst hx
      rw [List.filter_cons]
      have hpx : (decide (g.id ≠ g.id)) = false := by simp
      rw [hpx]
      simp only [Bool.false_eq_true, if_false]
      have hrest : rest.filter (fun c => decide (c.id ≠ g.id)) = rest := by
        rw [List.filter_eq_self]
        intro c hc
        have := (List.pairwise_cons.1 hp).1 c hc
        simp
        omega
      rw [hrest]
      simp
    · have hxg : x.id < g.id := (List.pairwise_cons.1 hp).1 g hx
      rw [List.filter_cons]
      have hpx : (decide (x.id ≠ g.id)) = true := by simp; omega
      rw [hpx]
      simp only [if_true]
      have := ih (List.pairwise_cons.1 hp).2 hx
      simp only [List.length_cons]
      omega

theorem pairwise_id_inj (l : List Chunk)
    (hp : List.Pairwise (fun a b : Chunk => a.id < b.id) l) :
    ∀ c ∈ l, ∀ g ∈ l, c.id = g.id → c = g := by
  induction l with
  | nil => intro c hc; cases hc
  | cons x rest ih =>
    intro c hc g hg heq
    rcases List.mem_cons.1 hc with hc1 | hc1
    · rcases List.mem_cons.1 hg with hg1 | hg1
      · rw [hc1, hg1]
      · have hlt := (List.pairwise_cons.1 hp).1 g hg1
        rw [hc1] at heq
        exact absurd heq (by omega)
    · rcases List.mem_cons.1 hg with hg1 | hg1
      · have hlt := (List.pairwise_cons.1 hp).1 c hc1
        rw [hg1] at heq
        exact absurd heq (by omega)
      · exact ih (List.pairwise_cons.1 hp).2 c hc1 g hg1 heq

theorem sorted_filter_gt (l : List Chunk)
    (hp : List.Pairwise (fun a b : Chunk => a.id < b.id) l) :
    ∀ (k : Nat) (hk : k < l.length),
      l.filter (fun c => decide ((l.get ⟨k, hk⟩).id < c.id)) = l.drop (k + 1) := by
  induction l with
  | nil =>
    intro k hk
    simp at hk
  | cons x rest ih =>
    intro k hk
    cases k with
    | zero =>
      show (x :: rest).filter (fun c => decide (x.id < c.id)) = rest
      rw [List.filter_cons]
      have hpx : (decide (x.id < x.id)) = false := by simp
      rw [hpx]
      simp only [Bool.false_eq_true, if_false]
      rw [List.filter_eq_self]
      intro c hc
      have := (List.pairwise_cons.1 hp).1 c hc
      simpa using this
    | succ k =>
      have hk' : k < rest.length := by simpa using hk
      have hget : (x :: rest).get ⟨k + 1, hk⟩ = rest.get ⟨k, hk'⟩ := rfl
      have hmem : rest.get ⟨k, hk'⟩ ∈ rest := List.get_mem rest k hk'
      have hlt : x.id < (rest.get ⟨k, hk'⟩).id := (List.pairwise_cons.1 hp).1 _ hmem
      rw [hget, List.filter_cons]
      have hpx : (decide ((rest.get ⟨k, hk'⟩).id < x.id)) = false := by
        rw [decide_eq_false_iff_not]
        omega
      rw [hpx]
      simp only [Bool.false_eq_true, if_false]
      rw [ih (List.pairwise_cons.1 hp).2 k hk']
      rfl

theorem receive_pop_eq (tok : Option String) (req : Request) (created : String) (db : DB)
    (hm : req.method = "POST") (ht : tokenCheckFails tok req.token = false)
    (hu : getField req.fields "uuid" "" ≠ "")
    (hc : getField req.fields "command" "" = "pop") :
    showboat_receive tok req created db =
      (⟨200, Body.ok⟩, popDelete db (getField req.fields "uuid" "")) := by
  unfold showboat_receive
  rw [hc]
  rw [if_neg (fun hn => hn hm)]
  rw [if_neg (by rw [ht]; exact Bool.false_ne_true)]
  rw [if_neg (by push_neg; exact ⟨hu, by decide⟩)]
  rw [if_neg (by decide : ¬ ("pop" : String) = "init")]
  rw [if_neg (by decide : ¬ ("pop" : String) = "note")]
  rw [if_neg (by decide : ¬ ("pop" : String) = "exec")]
  rw [if_neg (by decide : ¬ ("pop" : String) = "image")]
  rw [if_pos rfl]

theorem receive_pop_sublist (tok : Option String) (req : Request) (created : String) (db : DB)
    (hc : getField req.fields "command" "" = "pop") :
    ((showboat_receive tok req created db).2).rows.Sublist db.rows := by
  unfold showboat_receive
  rw [hc]
  split
  · exact List.Sublist.refl _
  split
  · exact List.Sublist.refl _
  split
  · exact List.Sublist.refl _
  rw [if_neg (by decide : ¬ ("pop" : String) = "init")]
  rw [if_neg (by decide : ¬ ("pop" : String) = "note")]
  rw [if_neg (by decide : ¬ ("pop" : String) = "exec")]
  rw [if_neg (by decide : ¬ ("pop" : String) = "image")]
  rw [if_pos rfl]
  exact popDelete_rows_sublist db _

theorem summaryFor_id (db : DB) (u : String) : (summaryFor db u).showboat_id = u := by
  unfold summaryFor
  split <;> rfl

theorem summaryFor_eq (db : DB) (u : String) (t : String) (ts : List String)
    (hm : (docRows db u).map Chunk.created_at = t :: ts) :
    summaryFor db u = ⟨u, (docRows db u).length, ts.foldl min t, ts.foldl max t⟩ := by
  unfold summaryFor
  rw [hm]

theorem map_summaryFor_ids (db : DB) :
    ∀ l : List String, (l.map (summaryFor db)).map Summary.showboat_id = l := by
  intro l
  induction l with
  | nil => rfl
  | cons a t ih => simp [summaryFor_id, ih]

/-- C4: for every content string, make_fence returns a string of backticks of
length max(3, L + 1) where L is the length of the longest contiguous backtick
run in the content; the fence has length at least 3, is strictly longer than
every backtick run occurring in the content, and has length exactly 3 when
the content (including the empty string) contains no backtick. -/
theorem make_fence_spec (content : String) :
    ∃ L, (∃ s t, content.data = s ++ List.replicate L backtick ++ t) ∧
      (∀ k s t, content.data = s ++ List.replicate k backtick ++ t → k ≤ L) ∧
      make_fence content = String.mk (List.replicate (max 3 (L + 1)) backtick) ∧
      3 ≤ (make_fence content).length ∧
      (∀ k s t, content.data = s ++ List.replicate k backtick ++ t →
        k < (make_fence content).length) ∧
      (backtick ∉ content.data → (make_fence content).length = 3) := by
  refine ⟨maxRun content.data, maxRun_achieved _, ?_, make_fence_eq content, ?_, ?_, ?_⟩
  · intro k s t h
    have h1 := run_le_maxRun k s t
    rw [← h] at h1
    exact h1
  · rw [make_fence_length]
    omega
  · intro k s t h
    have h1 := run_le_maxRun k s t
    rw [← h] at h1
    rw [make_fence_length]
    omega
  · intro h
    rw [make_fence_length, maxRun_eq_zero_of_no_backtick _ h]
    omega

/-- Witness for C4: a content of three backticks gets a strictly longer fence,
and a backtick-free content gets a fence of length exactly 3. -/
theorem make_fence_spec_witness :
    3 < (make_fence (String.mk (List.replicate 3 backtick))).length ∧
    (make_fence "ab").length = 3 := by
  constructor
  · obtain ⟨L, hach, hbound, heq, hge, hgt, hnone⟩ :=
      make_fence_spec (String.mk (List.replicate 3 backtick))
    exact hgt 3 [] [] (by decide)
  · obtain ⟨L, hach, hbound, heq, hge, hgt, hnone⟩ := make_fence_spec "ab"
    exact hnone (by decide)

/-- C5: rendering an exec command produces exactly the layout
fenceA + language + newline + input + newline + fenceA + blank line + fenceB +
"output" + newline + output + newline + fenceB, where fenceA is computed from
the input and fenceB independently from the output; when input or output
contains a three-backtick run the corresponding fence has length at least 4. -/
theorem exec_markdown_spec (language input_code output_text : String) :
    execMarkdown language input_code output_text =
      make_fence input_code ++ language ++ "\n" ++ input_code ++ "\n" ++
        make_fence input_code ++ "\n\n" ++ make_fence output_text ++ "output\n" ++
        output_text ++ "\n" ++ make_fence output_text ∧
    ((∃ s t, input_code.data = s ++ List.replicate 3 backtick ++ t) →
      4 ≤ (make_fence input_code).length) ∧
    ((∃ s t, output_text.data = s ++ List.replicate 3 backtick ++ t) →
      4 ≤ (make_fence output_text).length) := by
  refine ⟨rfl, ?_, ?_⟩
  · rintro ⟨s, t, h⟩
    have h1 := run_le_maxRun 3 s t
    rw [← h] at h1
    rw [make_fence_length]
    omega
  · rintro ⟨s, t, h⟩
    have h1 := run_le_maxRun 3 s t
    rw [← h] at h1
    rw [make_fence_length]
    omega

/-- Witness for C5: with input and output both equal to a three-backtick run,
both computed fences have length at least 4. -/
theorem exec_markdown_spec_witness :
    4 ≤ (make_fence (String.mk (List.replicate 3 backtick))).length :=
  (exec_markdown_spec "bash" (String.mk (List.replicate 3 backtick))
    (String.mk (List.replicate 3 backtick))).2.1 ⟨[], [], by decide⟩

/-- Counterexample for C6: posting an image command whose filename field holds
"shot.py" renders a markdown block that does not contain the filename and
whose fence ignores the filename field entirely: the code reads the "input"
form field (here absent), not the "filename" field. -/
theorem image_markdown_counterexample :
    imageMarkdown [("filename", "shot.py")] =
      String.mk (List.replicate 3 backtick) ++ "bash {image}\n" ++ "" ++ "\n" ++
        String.mk (List.replicate 3 backtick) ∧
    ¬ ∃ s t, (imageMarkdown [("filename", "shot.py")]).data = s ++ "shot.py".data ++ t := by
  constructor
  · decide
  · intro h
    have hc := (containsSub_iff "shot.py".data
      (imageMarkdown [("filename", "shot.py")]).data).2 h
    exact absurd hc (by decide)

/-- C6 as amended: the rendered markdown of an image command is a fenced block
whose fence is computed from the "input" form field (the showboat client puts
the filename there), tagged bash {image} and containing that input text; when
the alt field is non-empty the markdown additionally ends with an image
reference with empty URL; and the fence is strictly longer than every
backtick run of the input text. -/
theorem image_markdown_amended (fields : List (String × String)) :
    (getField fields "alt" "" = "" →
      imageMarkdown fields =
        make_fence (getField fields "input" "") ++ "bash {image}\n" ++
          getField fields "input" "" ++ "\n" ++ make_fence (getField fields "input" "")) ∧
    (getField fields "alt" "" ≠ "" →
      imageMarkdown fields =
        make_fence (getField fields "input" "") ++ "bash {image}\n" ++
          getField fields "input" "" ++ "\n" ++ make_fence (getField fields "input" "") ++
          "\n\n![" ++ getField fields "alt" "" ++ "]()") ∧
    (∃ s t, (imageMarkdown fields).data = s ++ (getField fields "input" "").data ++ t) ∧
    (∀ k s t, (getField fields "input" "").data = s ++ List.replicate k backtick ++ t →
      k < (make_fence (getField fields "input" "")).length) := by
  have h1 : getField fields "alt" "" = "" →
      imageMarkdown fields =
        make_fence (getField fields "input" "") ++ "bash {image}\n" ++
          getField fields "input" "" ++ "\n" ++ make_fence (getField fields "input" "") := by
    intro h
    unfold imageMarkdown
    rw [if_neg (fun hne => hne h)]
  have h2 : getField fields "alt" "" ≠ "" →
      imageMarkdown fields =
        make_fence (getField fields "input" "") ++ "bash {image}\n" ++
          getField fields "input" "" ++ "\n" ++ make_fence (getField fields "input" "") ++
          "\n\n![" ++ getField fields "alt" "" ++ "]()" := by
    intro h
    unfold imageMarkdown
    rw [if_pos h]
  refine ⟨h1, h2, ?_, ?_⟩
  · by_cases halt : getField fields "alt" "" = ""
    · refine ⟨(make_fence (getField fields "input" "") ++ "bash {image}\n").data,
        ("\n" ++ make_fence (getField fields "input" "")).data, ?_⟩
      rw [h1 halt]
      simp [String.data_append, List.append_assoc]
    · refine ⟨(make_fence (getField fields "input" "") ++ "bash {image}\n").data,
        ("\n" ++ make_fence (getField fields "input" "") ++ "\n\n![" ++
          getField fields "alt" "" ++ "]()").data, ?_⟩
      rw [h2 halt]
      simp [String.data_append, List.append_assoc]
  · intro k s t h
    have hk := run_le_maxRun k s t
    rw [← h] at hk
    rw [make_fence_length]
    omega

/-- Witness for C6 as amended: a concrete image command with input "shot.py"
and alt "pic" renders the fenced block with the trailing image reference, and
the rendered markdown contains the input text. -/
theorem image_markdown_amended_witness :
    imageMarkdown [("input", "shot.py"), ("alt", "pic")] =
      make_fence "shot.py" ++ "bash {image}\n" ++ "shot.py" ++ "\n" ++ make_fence "shot.py" ++
        "\n\n![" ++ "pic" ++ "]()" ∧
    (∃ s t, (imageMarkdown [("input", "shot.py"), ("alt", "pic")]).data
        = s ++ ("shot.py").data ++ t) := by
  have h := image_markdown_amended [("input", "shot.py"), ("alt", "pic")]
  exact ⟨h.2.1 (by decide), h.2.2.1⟩

/-- Counterexample for C7: an init command whose title field is present but
empty renders "# ", not "# Untitled": the code falls back to "Untitled" only
when the field is absent, not when it is empty. -/
theorem init_markdown_counterexample :
    initMarkdown [("title", "")] = "# " ∧ initMarkdown [("title", "")] ≠ "# Untitled" := by
  constructor
  · decide
  · decide

/-- C7 as amended: rendering an init command yields "# " followed by the title
field whenever that field is present (even when empty), and exactly
"# Untitled" when the title field is absent. -/
theorem init_markdown_amended (fields : List (String × String)) (t : String) :
    (fields.lookup "title" = some t → initMarkdown fields = "# " ++ t) ∧
    (fields.lookup "title" = none → initMarkdown fields = "# Untitled") := by
  constructor
  · intro h
    rw [initMarkdown, getField, h]
    rfl
  · intro h
    rw [initMarkdown, getField, h]
    rfl

/-- Witness for C7 as amended: a present title renders behind "# " and an
absent title renders "# Untitled". -/
theorem init_markdown_amended_witness :
    initMarkdown [("title", "My Demo")] = "# My Demo" ∧ initMarkdown [] = "# Untitled" := by
  constructor
  · exact (init_markdown_amended [("title", "My Demo")] "My Demo").1 (by decide)
  · exact (init_markdown_amended [] "x").2 rfl

/-- C1 failing-input evaluation: after an init chunk and a note chunk for
document doc-1, receiving a pop command leaves only one row: the newest prior
chunk is deleted from storage, the chunk count drops from 2 to 1 instead of
rising to 3, and no pop chunk is stored at all. -/
theorem pop_is_destructive_on_store :
    dbAfterNote.rows.length = 2 ∧
    popOutcome.2.rows.length = 1 ∧
    (∀ c ∈ popOutcome.2.rows, c.markdown ≠ "To be popped") ∧
    popOutcome.2.rows.length ≠ 3 := by
  refine ⟨by decide, by decide, by decide, by decide⟩

/-- C2 failing-input evaluation: the pop command is answered with status 200,
not 201, and removes a row instead of appending exactly one chunk. -/
theorem pop_response_status_divergence :
    popOutcome.1.status = 200 ∧
    popOutcome.1.status ≠ 201 ∧
    popOutcome.2.rows.length + 1 = dbAfterNote.rows.length := by
  refine ⟨by decide, by decide, by decide⟩

/-- C3 failing-input evaluation: listing doc-1 after a successful init chunk
returns only the stored columns id, showboat_id, created_at and markdown; no
rendered_markdown field and no raw command fields are ever present in the
serialised chunks. -/
theorem listing_lacks_rendered_markdown :
    showboat_document_json dbAfterInit "doc-1" none
        = [[("id", JVal.n 1), ("showboat_id", JVal.s "doc-1"),
            ("created_at", JVal.s "2024-01-01T00:00:00"), ("markdown", JVal.s "# Title")]] ∧
    (∀ o ∈ showboat_document_json dbAfterInit "doc-1" none,
      "rendered_markdown" ∉ o.map Prod.fst ∧ "command" ∉ o.map Prod.fst) := by
  refine ⟨by decide, by decide⟩

/-- C8: on a well-formed store, listing a document without a cursor returns
exactly its chunks in ascending id order, and listing with after = id of its
k-th chunk returns exactly the chunks after position k: every returned chunk
has id strictly greater than the cursor and none is omitted. -/
theorem listing_order_and_cursor (db : DB) (u : String) (h : WF db) :
    listRows db u none = docRows db u ∧
    List.Pairwise (fun a b : Chunk => a.id < b.id) (docRows db u) ∧
    ∀ (k : Nat) (hk : k < (docRows db u).length),
      listRows db u (some ((docRows db u).get ⟨k, hk⟩).id) = (docRows db u).drop (k + 1) := by
  have hdoc : List.Pairwise (fun a b : Chunk => a.id < b.id) (docRows db u) :=
    h.1.sublist (List.filter_sublist _)
  have hsorted : List.Sorted (fun x y : Chunk => x.id ≤ y.id) (docRows db u) :=
    hdoc.imp (fun hlt => le_of_lt hlt)
  refine ⟨?_, hdoc, ?_⟩
  · show List.insertionSort (fun x y : Chunk => x.id ≤ y.id) (docRows db u) = docRows db u
    exact hsorted.insertionSort_eq
  · intro k hk
    have hff : db.rows.filter (fun c => c.showboat_id == u &&
        decide (((docRows db u).get ⟨k, hk⟩).id < c.id))
        = (docRows db u).filter (fun c => decide (((docRows db u).get ⟨k, hk⟩).id < c.id)) := by
      unfold docRows
      rw [List.filter_filter]
      congr 1
      funext c
      rw [Bool.and_comm]
    have hsub : List.Sorted (fun x y : Chunk => x.id ≤ y.id)
        ((docRows db u).filter (fun c => decide (((docRows db u).get ⟨k, hk⟩).id < c.id))) :=
      hsorted.sublist (List.filter_sublist _)
    show List.insertionSort (fun x y : Chunk => x.id ≤ y.id)
        (db.rows.filter (fun c => c.showboat_id == u &&
          decide (((docRows db u).get ⟨k, hk⟩).id < c.id))) = (docRows db u).drop (k + 1)
    rw [hff, hsub.insertionSort_eq, sorted_filter_gt (docRows db u) hdoc k hk]

/-- Witness for C8: on the concrete two-chunk store, listing doc-1 with
after = 1 (the id of its first chunk) returns exactly the second chunk. -/
theorem listing_order_and_cursor_witness :
    WF dbAfterNote ∧
    listRows dbAfterNote "doc-1" (some 1) =
      [⟨2, "doc-1", "2024-01-01T00:00:01", "To be popped", none⟩] := by
  have hwf : WF dbAfterNote := ⟨by decide, by decide⟩
  refine ⟨hwf, ?_⟩
  have h := (listing_order_and_cursor dbAfterNote "doc-1" hwf).2.2 0 (by decide)
  exact h

/-- C9: the index view has exactly one entry per distinct document id of the
store, each carrying that document's chunk count and earliest and latest
created_at, ordered by latest created_at descending; and pop requests never
insert rows, so no pop chunk can occur in the aggregated store. -/
theorem index_summaries_spec (db : DB) :
    List.Perm ((showboat_index db).map Summary.showboat_id)
      ((db.rows.map Chunk.showboat_id).dedup) ∧
    ((showboat_index db).map Summary.showboat_id).Nodup ∧
    (∀ s ∈ showboat_index db,
      docRows db s.showboat_id ≠ [] ∧
      s.chunk_count = (docRows db s.showboat_id).length ∧
      s.first_chunk ∈ (docRows db s.showboat_id).map Chunk.created_at ∧
      (∀ x ∈ (docRows db s.showboat_id).map Chunk.created_at, s.first_chunk ≤ x) ∧
      s.last_chunk ∈ (docRows db s.showboat_id).map Chunk.created_at ∧
      (∀ x ∈ (docRows db s.showboat_id).map Chunk.created_at, x ≤ s.last_chunk)) ∧
    List.Sorted rDesc (showboat_index db) ∧
    (∀ (tok : Option String) (req : Request) (created : String) (d0 : DB),
      getField req.fields "command" "" = "pop" →
      ((showboat_receive tok req created d0).2).rows.Sublist d0.rows) := by
  have hperm : (showboat_index db).Perm
      ((db.rows.map Chunk.showboat_id).dedup.map (summaryFor db)) :=
    List.perm_insertionSort rDesc _
  have hmap : ((db.rows.map Chunk.showboat_id).dedup.map (summaryFor db)).map
      Summary.showboat_id = (db.rows.map Chunk.showboat_id).dedup :=
    map_summaryFor_ids db _
  refine ⟨?_, ?_, ?_, ?_, ?_⟩
  · have hp := hperm.map Summary.showboat_id
    rw [hmap] at hp
    exact hp
  · have h2 := (hperm.map Summary.showboat_id).nodup_iff
    rw [hmap] at h2
    exact h2.2 (List.nodup_dedup _)
  · intro s hs
    have hs' : s ∈ (db.rows.map Chunk.showboat_id).dedup.map (summaryFor db) :=
      hperm.mem_iff.1 hs
    obtain ⟨u, hu, hsu⟩ := List.mem_map.1 hs'
    subst hsu
    have hu' : u ∈ db.rows.map Chunk.showboat_id := List.mem_dedup.1 hu
    obtain ⟨c, hc, hcu⟩ := List.mem_map.1 hu'
    have hmemdoc : c ∈ docRows db u := mem_docRows.2 ⟨hc, hcu⟩
    have hne : docRows db u ≠ [] := List.ne_nil_of_mem hmemdoc
    have hmapne : (docRows db u).map Chunk.created_at ≠ [] := fun hmn =>
      hne (List.map_eq_nil_iff.1 hmn)
    cases hm : (docRows db u).map Chunk.created_at with
    | nil => exact absurd hm hmapne
    | cons t ts =>
      rw [summaryFor_eq db u t ts hm]
      refine ⟨hne, rfl, ?_, ?_, ?_, ?_⟩
      · rw [hm]
        exact foldl_min_mem ts t
      · intro x hx
        rw [hm] at hx
        exact foldl_min_le ts t x hx
      · rw [hm]
        exact foldl_max_mem ts t
      · intro x hx
        rw [hm] at hx
        exact foldl_max_le ts t x hx
  · exact List.sorted_insertionSort rDesc _
  · intro tok req created d0 hcmd
    exact receive_pop_sublist tok req created d0 hcmd

/-- Witness for C9: the concrete three-document store is listed most recently
active first, and a concrete pop request leaves its rows a sublist. -/
theorem index_summaries_spec_witness :
    List.Sorted rDesc (showboat_index exDb3) ∧
    ((showboat_receive none reqPop "2024-02-01T00:00:00" exDb3).2).rows.Sublist exDb3.rows := by
  refine ⟨(index_summaries_spec exDb3).2.2.2.1, ?_⟩
  exact (index_summaries_spec exDb3).2.2.2.2 none reqPop "2024-02-01T00:00:00" exDb3 (by decide)

/-- C10: a pop request on a well-formed store succeeds with the ok body and
deletes exactly the highest-id row of the addressed document: when the
document has no rows the store is unchanged; otherwise a maximal row exists,
and for any such row the new store is the old one minus exactly that row, so
every other row, in particular every row of every other document, survives. -/
theorem pop_frame_spec (tok : Option String) (req : Request) (created : String) (db : DB)
    (hwf : WF db) (hm : req.method = "POST")
    (ht : tokenCheckFails tok req.token = false)
    (hu : getField req.fields "uuid" "" ≠ "")
    (hc : getField req.fields "command" "" = "pop") :
    (showboat_receive tok req created db).1 = ⟨200, Body.ok⟩ ∧
    (docRows db (getField req.fields "uuid" "") = [] →
      (showboat_receive tok req created db).2 = db) ∧
    (docRows db (getField req.fields "uuid" "") ≠ [] →
      ∃ g ∈ db.rows, g.showboat_id = getField req.fields "uuid" "" ∧
        ∀ c ∈ db.rows, c.showboat_id = getField req.fields "uuid" "" → c.id ≤ g.id) ∧
    (∀ g ∈ db.rows, g.showboat_id = getField req.fields "uuid" "" →
      (∀ c ∈ db.rows, c.showboat_id = getField req.fields "uuid" "" → c.id ≤ g.id) →
      (showboat_receive tok req created db).2.rows
          = db.rows.filter (fun c => decide (c.id ≠ g.id)) ∧
        (showboat_receive tok req created db).2.rows.length + 1 = db.rows.length ∧
        (∀ c ∈ db.rows, c.id ≠ g.id → c ∈ (showboat_receive tok req created db).2.rows) ∧
        (∀ c ∈ db.rows, c.showboat_id ≠ getField req.fields "uuid" "" →
          c ∈ (showboat_receive tok req created db).2.rows)) := by
  have he := receive_pop_eq tok req created db hm ht hu hc
  rw [he]
  refine ⟨rfl, ?_, ?_, ?_⟩
  · intro hdoc
    exact popDelete_empty hdoc
  · intro hdoc
    obtain ⟨m, hmax, ⟨g, hg, hgid⟩, hall⟩ := docMaxId_some hdoc
    obtain ⟨hgrows, hgsid⟩ := mem_docRows.1 hg
    refine ⟨g, hgrows, hgsid, fun c hc1 hc2 => ?_⟩
    rw [hgid]
    exact hall c (mem_docRows.2 ⟨hc1, hc2⟩)
  · intro g hgrows hgsid hgmax
    have hgdoc : g ∈ docRows db (getField req.fields "uuid" "") :=
      mem_docRows.2 ⟨hgrows, hgsid⟩
    have hdoc : docRows db (getField req.fields "uuid" "") ≠ [] :=
      List.ne_nil_of_mem hgdoc
    obtain ⟨m, hmax, ⟨g', hg', hg'id⟩, hall⟩ := docMaxId_some hdoc
    obtain ⟨hg'rows, hg'sid⟩ := mem_docRows.1 hg'
    have hmg : m = g.id := by
      have h1 : m ≤ g.id := by
        rw [← hg'id]
        exact hgmax g' hg'rows hg'sid
      have h2 : g.id ≤ m := hall g hgdoc
      omega
    have hpd : popDelete db (getField req.fields "uuid" "") =
        ⟨db.rows.filter (fun c => decide (c.id ≠ g.id)), db.nextId⟩ := by
      rw [popDelete, hmax, hmg]
    refine ⟨?_, ?_, ?_, ?_⟩
    · rw [hpd]
    · rw [hpd]
      exact pairwise_filter_ne_length db.rows hwf.1 g hgrows
    · intro c hc1 hc2
      rw [hpd]
      exact List.mem_filter.2 ⟨hc1, by simpa using hc2⟩
    · intro c hc1 hc2
      rw [hpd]
      refine List.mem_filter.2 ⟨hc1, ?_⟩
      have hne : c.id ≠ g.id := by
        intro heq
        have hcg := pairwise_id_inj db.rows hwf.1 c hc1 g hgrows heq
        rw [hcg] at hc2
        exact hc2 hgsid
      simpa using hne

/-- Witness for C10: popping document d in the concrete two-document store
succeeds with the ok body and removes exactly one row. -/
theorem pop_frame_spec_witness :
    (showboat_receive none reqPopD "2024-02-01T00:00:00" exDb4).1 = ⟨200, Body.ok⟩ ∧
    (showboat_receive none reqPopD "2024-02-01T00:00:00" exDb4).2.rows.length + 1
        = exDb4.rows.length := by
  have h := pop_frame_spec none reqPopD "2024-02-01T00:00:00" exDb4 ⟨by decide, by decide⟩
    rfl rfl (by decide) (by decide)
  refine ⟨h.1, ?_⟩
  exact (h.2.2.2 ⟨3, "d", "2024-01-03T00:00:00", "z", none⟩ (by decide) (by decide)
    (by decide)).2.1
